import Mathlib

/-!
Verification of the LLM contract-generation pipeline (api/llm-generate handler):
rate limiting (checkRateLimit), contract-type classification (detectContractType),
prompt construction, retry/backoff (LLMService.generateContract), response
sanitization (validateAndCleanContract) and the request handler.

JavaScript strings are modelled as `List Char`; JS `Map` as an association
list; the external LLM provider as an oracle from (systemPrompt, userPrompt,
attempt) to a success text or an error message. All definitions are executable.
-/

set_option maxRecDepth 20000

deriving instance DecidableEq for Except

/-- Coerce a Lean string literal to the `List Char` representation used
throughout. -/
def str (s : String) : List Char := s.data

/-- ASCII lower-casing of one character, modelling `String.prototype.toLowerCase`
on the ASCII inputs used by the service (keywords and requirements). -/
def lcChar (c : Char) : Char :=
  if 'A' ≤ c ∧ c ≤ 'Z' then Char.ofNat (c.toNat + 32) else c

/-- `requirements.toLowerCase()`. -/
def jsToLower (s : List Char) : List Char := s.map lcChar

/-- Whitespace for `String.prototype.trim` (ASCII subset actually occurring in
the pipeline). -/
def isJsWs (c : Char) : Bool :=
  c = ' ' || c = '\t' || c = '\n' || c = '\r' || c = '\x0b' || c = '\x0c'

/-- `s.includes(pat)`: `pat` occurs as a contiguous substring of `s`. -/
def jsIncludes : List Char → List Char → Bool
  | [], pat => pat.isEmpty
  | c :: s, pat => pat.isPrefixOf (c :: s) || jsIncludes s pat

/-- Number of positions of `s` at which `pat` occurs (used to state the
"exactly one license header / pragma" properties). -/
def countOcc : List Char → List Char → Nat
  | [], pat => if pat.isEmpty then 1 else 0
  | c :: s, pat => (if pat.isPrefixOf (c :: s) then 1 else 0) + countOcc s pat

/-- `s.split('\n')`. -/
def splitNl : List Char → List (List Char)
  | [] => [[]]
  | c :: s =>
    if c = '\n' then [] :: splitNl s
    else
      match splitNl s with
      | l :: ls => (c :: l) :: ls
      | [] => [[c]]

/-- `lines.join('\n')`. -/
def joinNl : List (List Char) → List Char
  | [] => []
  | [l] => l
  | l :: ls => l ++ '\n' :: joinNl ls

/-- Drop leading JS whitespace (left half of `trim`). -/
def jsTrimL (s : List Char) : List Char := s.dropWhile isJsWs

/-- Drop trailing JS whitespace (right half of `trim`). -/
def jsTrimR : List Char → List Char
  | [] => []
  | c :: s =>
    if (jsTrimR s).isEmpty then (if isJsWs c then [] else [c]) else c :: jsTrimR s

/-- `s.trim()`. -/
def jsTrim (s : List Char) : List Char := jsTrimR (jsTrimL s)

/-- Emit a (possibly collapsed) run of `k` consecutive newlines:
`/\n{3,}/g → '\n\n'` keeps runs of length ≤ 2 and shortens longer runs to 2. -/
def emitNl (k : Nat) : List Char :=
  if 3 ≤ k then ['\n', '\n'] else List.replicate k '\n'

/-- Scanner for `replace(/\n{3,}/g, '\n\n')`; `k` counts pending newlines. -/
def collapseGo : Nat → List Char → List Char
  | k, [] => emitNl k
  | k, c :: s => if c = '\n' then collapseGo (k + 1) s else emitNl k ++ c :: collapseGo 0 s

/-- `cleaned.replace(/\n{3,}/g, '\n\n')`. -/
def collapseNl (s : List Char) : List Char := collapseGo 0 s

/-- `lines.splice(n, 0, x)` followed by nothing else: insert `x` at index `n`. -/
def insertAt (n : Nat) (x : List Char) (ls : List (List Char)) : List (List Char) :=
  ls.take n ++ x :: ls.drop n

/-- Count occurrences of a single character in a line, modelling
`(line.match(/\{/g) || []).length`. -/
def countChar (s : List Char) (c : Char) : Nat := s.countP (· = c)

example : jsIncludes (str "hello contract world") (str "contract ") = true := by decide
example : jsTrim (str "  a b \n") = str "a b" := by decide
example : collapseNl (str "a\n\n\n\nb\n\nc") = str "a\n\nb\n\nc" := by decide
example : splitNl (str "a\nb\n") = [str "a", str "b", []] := by decide
example : joinNl (splitNl (str "a\nb\n")) = str "a\nb\n" := by decide
example : countOcc (str "aba aba") (str "aba") = 2 := by decide


/-! ## Fence stripping: `replace(/```solidity\n?/g, '').replace(/```\n?/g, '')` -/

/-- Consume one optional leading newline (the greedy `\n?` after a matched
fence). -/
def dropOptNl : List Char → List Char
  | '\n' :: r => r
  | r => r

/-- Global replacement of the literal `h0 :: tl` (followed by an optional
newline) with the empty string, scanning left to right over non-overlapping
matches as JS `String.replace` with a `g` regex does.  The `fuel` argument
only drives structural recursion: every step consumes at least one character,
so with initial fuel equal to the string length it is never exhausted. -/
def replaceLitNlF (h0 : Char) (tl : List Char) : Nat → List Char → List Char
  | 0, s => s
  | _, [] => []
  | fuel + 1, c :: s =>
    if (h0 :: tl).isPrefixOf (c :: s) then
      replaceLitNlF h0 tl fuel (dropOptNl (s.drop tl.length))
    else c :: replaceLitNlF h0 tl fuel s

/-- Remove every occurrence of the literal `h0 :: tl`, each with an optional
trailing newline. -/
def replaceLitNl (h0 : Char) (tl : List Char) (s : List Char) : List Char :=
  replaceLitNlF h0 tl s.length s

/-- Step 1 of the Sanitizer: remove markdown code-fence delimiters. -/
def stripFences (s : List Char) : List Char :=
  replaceLitNl '`' (str "``") (replaceLitNl '`' (str "``solidity") s)

example : stripFences (str "```solidity\ncontract C\n```\nx") = str "contract C\nx" := by decide

/-! ## Explanatory-pattern removal (the `explanatoryPatterns` regex list)

Each of the sixteen patterns uses `.` (which does not match a newline) and
literals without newlines, so no match ever spans a line boundary and no match
deletes a newline; global replacement over the whole string is therefore the
same as replacement applied line by line, which is how it is modelled here. -/

/-- Case-insensitive prefix test (the `i` regex flag). -/
def ciPrefix : List Char → List Char → Bool
  | [], _ => true
  | _ :: _, [] => false
  | p :: ps, c :: cs => (lcChar p = lcChar c) && ciPrefix ps cs

/-- Earliest occurrence of `pat` (case-insensitive) in `s`; returns the suffix
of `s` after the occurrence.  This is exactly what a lazy `.*?` before `pat`
produces. -/
def ciFind (pat : List Char) : List Char → Option (List Char)
  | [] => if ciPrefix pat [] then some [] else none
  | c :: s => if ciPrefix pat (c :: s) then some ((c :: s).drop pat.length) else ciFind pat s

/-- Match a chain `.*?l₁.*?l₂...` of literals lazily, returning the suffix
after the last literal. -/
def ciChain : List (List Char) → List Char → Option (List Char)
  | [], s => some s
  | p :: ps, s =>
    match ciFind p s with
    | some r => ciChain ps r
    | none => none

/-- Try to match the pattern `p0 :: ptl` followed lazily by the literals `ps`
at the start of `s`; on success return the suffix after the match. -/
def ciMatchAt (p0 : Char) (ptl : List Char) (ps : List (List Char)) (s : List Char) :
    Option (List Char) :=
  if ciPrefix (p0 :: ptl) s then ciChain ps (s.drop (ptl.length + 1)) else none

/-- Global removal (replacement by the empty string) of all matches of an
unanchored lazy pattern, scanning left to right.  Fuel-driven structural
recursion as in `replaceLitNlF`; a successful match consumes at least the
head character because the first literal of every pattern is non-empty. -/
def scanRemoveF (p0 : Char) (ptl : List Char) (ps : List (List Char)) :
    Nat → List Char → List Char
  | 0, s => s
  | _, [] => []
  | fuel + 1, c :: s =>
    match ciMatchAt p0 ptl ps (c :: s) with
    | some r => scanRemoveF p0 ptl ps fuel r
    | none => c :: scanRemoveF p0 ptl ps fuel s

/-- One unanchored pattern such as `/Here's.*?contract.*?:/gi`, applied to one
line. -/
def applySeq (p0 : Char) (ptl : List Char) (ps : List (List Char)) (line : List Char) :
    List Char := scanRemoveF p0 ptl ps line.length line

/-- One anchored lazy pattern such as `/^.*?implementation.*?:/gim`, applied to
one line (at most one match per line, starting at the line start). -/
def applyAnchoredLazy (ps : List (List Char)) (line : List Char) : List Char :=
  match ciChain ps line with
  | some r => r
  | none => line

/-- One whole-line pattern such as `/^Note:.*$/gim`: if the line starts with
the literal, the match covers the rest of the line and removal empties it. -/
def applyLineStart (p : List Char) (line : List Char) : List Char :=
  if ciPrefix p line then [] else line

/-- `/^\*\*.*?\*\*$/gim`: matches exactly the lines that start and end with
`**` and have length at least 4; removal empties the line. -/
def applyBold (line : List Char) : List Char :=
  if 4 ≤ line.length && ciPrefix (str "**") line &&
      ciPrefix (str "**") (line.drop (line.length - 2)) then [] else line

/-- The sixteen `explanatoryPatterns` of `validateAndCleanContract`, applied in
source order to one line. -/
def applyExplPatterns (l0 : List Char) : List Char :=
  let l1 := applySeq 'H' (str "ere\x27s") [str "contract", str ":"] l0
  let l2 := applySeq 'T' (str "his") [str "contract", str ":"] l1
  let l3 := applySeq 'I' (str "\x27ll") [str "create", str ":"] l2
  let l4 := applySeq 'B' (str "elow is") [str ":"] l3
  let l5 := applySeq 'T' (str "he following") [str ":"] l4
  let l6 := applySeq 'H' (str "ere is") [str ":"] l5
  let l7 := applySeq 'T' (str "his is") [str ":"] l6
  let l8 := applyAnchoredLazy [str "implementation", str ":"] l7
  let l9 := applyAnchoredLazy [str "example", str ":"] l8
  let l10 := applyAnchoredLazy [str "solution", str ":"] l9
  let l11 := applyLineStart (str "Note:") l10
  let l12 := applyLineStart (str "Important:") l11
  let l13 := applyLineStart (str "Remember:") l12
  let l14 := applyBold l13
  let l15 := applyLineStart (str "## ") l14
  applyLineStart (str "# ") l15

/-- Step 2 of the Sanitizer: remove explanatory phrases and markdown headings. -/
def removeExplanatory (s : List Char) : List Char :=
  joinNl ((splitNl s).map applyExplPatterns)

example : removeExplanatory (str "Here\x27s your contract:\ncode") = str "\ncode" := by decide
example : removeExplanatory (str "Note: careful\nuint x;") = str "\nuint x;" := by decide
example : removeExplanatory (str "## Title\npragma") = str "\npragma" := by decide

/-! ## Line-by-line processing (Solidity-start detection, explanation skipping,
brace-depth truncation) -/

/-- Whitespace class `\s` of JS regexes (ASCII part). -/
def isRegexWs (c : Char) : Bool :=
  c = ' ' || c = '\t' || c = '\n' || c = '\r' || c = '\x0b' || c = '\x0c'

/-- Word-character class `\w` of JS regexes. -/
def isWordChar (c : Char) : Bool :=
  ('a' ≤ c && c ≤ 'z') || ('A' ≤ c && c ≤ 'Z') || ('0' ≤ c && c ≤ '9') || c = '_'

/-- After a declaration keyword, `\s+\w+` requires at least one whitespace
character and then (after the whitespace run) a word character. -/
def declAfterKw (r : List Char) : Bool :=
  match r with
  | [] => false
  | c :: _ =>
    isRegexWs c &&
      (match r.dropWhile isRegexWs with
       | d :: _ => isWordChar d
       | [] => false)

/-- `trimmedLine.match(/^(contract|interface|library)\s+\w+/)` is truthy. -/
def declKwMatch (t : List Char) : Bool :=
  ((str "contract").isPrefixOf t && declAfterKw (t.drop 8)) ||
  ((str "interface").isPrefixOf t && declAfterKw (t.drop 9)) ||
  ((str "library").isPrefixOf t && declAfterKw (t.drop 7))

/-- The `isSolidityLine` predicate of `validateAndCleanContract` on the trimmed
line (`found` is the current `foundSolidityStart`). -/
def isSolidityLine (t : List Char) (found : Bool) : Bool :=
  (str "// SPDX-License-Identifier:").isPrefixOf t ||
  (str "pragma solidity").isPrefixOf t ||
  (str "import ").isPrefixOf t ||
  declKwMatch t ||
  ((str "//").isPrefixOf t && found) ||
  (found && (jsIncludes t (str "\x7b") || jsIncludes t (str "\x7d") ||
    jsIncludes t (str "function") || jsIncludes t (str "modifier") ||
    jsIncludes t (str "event") || jsIncludes t (str "struct") ||
    jsIncludes t (str "enum") || jsIncludes t (str "mapping") ||
    jsIncludes t (str "uint") || jsIncludes t (str "string") ||
    jsIncludes t (str "bool") || jsIncludes t (str "address") ||
    jsIncludes t (str "bytes") || t.isEmpty))

/-- `trimmedLine.match(/^\d+\./)` is truthy: one or more digits followed by a
dot at the start of the line. -/
def digitDotStart (t : List Char) : Bool :=
  match t with
  | [] => false
  | c :: _ =>
    c.isDigit &&
      (match t.dropWhile Char.isDigit with
       | '.' :: _ => true
       | _ => false)

/-- The `isExplanation` predicate of `validateAndCleanContract` on the trimmed
line (`trimmedLine.split(' ').length` equals the number of spaces plus one). -/
def isExplanationLine (t : List Char) : Bool :=
  !t.isEmpty && !(str "//").isPrefixOf t &&
  (jsIncludes t (str "This contract") || jsIncludes t (str "The above") ||
   jsIncludes t (str "This implementation") || jsIncludes t (str "Features:") ||
   jsIncludes t (str "Usage:") || jsIncludes t (str "Note:") ||
   jsIncludes t (str "Important:") || jsIncludes t (str "Remember:") ||
   digitDotStart t || (str "- ").isPrefixOf t || (str "* ").isPrefixOf t ||
   jsIncludes t (str "explanation") ||
   (jsIncludes t (str "deploy") && !jsIncludes t (str "function")) ||
   (8 < countChar t ' ' + 1 && !jsIncludes t (str "(") && !jsIncludes t (str "\x7b")))

/-- The main `for` loop of `validateAndCleanContract`: skip leading blank and
explanatory lines, keep Solidity-looking lines, track brace depth once a
declaration has been seen, and stop after the declaration braces balance
(`break`). -/
def procLines : List (List Char) → Bool → Bool → Int → List (List Char)
  | [], _, _, _ => []
  | line :: rest, found, inC, depth =>
    let t := jsTrim line
    if !found && t.isEmpty then procLines rest found inC depth
    else
      let isSol := isSolidityLine t found
      let found' := found || isSol
      if !isSol && !found' then procLines rest found' inC depth
      else if found' && !isSol && isExplanationLine t then procLines rest found' inC depth
      else
        let inC' := if declKwMatch t then true else inC
        let depth0 : Int := if declKwMatch t then 0 else depth
        if inC' then
          let d := depth0 + (countChar line '\x7b' : Int) - (countChar line '\x7d' : Int)
          if d = 0 && jsIncludes t (str "\x7d") then [line]
          else line :: procLines rest found' inC' d
        else line :: procLines rest found' inC' depth0

/-! ## License/pragma insertion, structural check, whitespace normalisation -/

def licenseMarker : List Char := str "SPDX-License-Identifier"
def defaultLicenseLine : List Char := str "// SPDX-License-Identifier: MIT"
def pragmaMarker : List Char := str "pragma solidity"
def defaultPragmaLine : List Char := str "pragma solidity ^0.8.19;"

/-- `if (!cleaned.includes('SPDX-License-Identifier')) cleaned = '// SPDX-License-Identifier: MIT\n' + cleaned`. -/
def ensureLicense (s : List Char) : List Char :=
  if jsIncludes s licenseMarker then s else defaultLicenseLine ++ '\n' :: s

/-- `if (!cleaned.includes('pragma solidity'))`: split into lines, find the
first line containing the license marker, and splice the default pragma line
immediately after it. -/
def ensurePragma (s : List Char) : List Char :=
  if jsIncludes s pragmaMarker then s
  else
    let lines := splitNl s
    match lines.findIdx? (fun l => jsIncludes l licenseMarker) with
    | some i => joinNl (insertAt (i + 1) defaultPragmaLine lines)
    | none => s

/-- The final structural check: the cleaned text contains one of
`'contract '`, `'interface '`, `'library '`. -/
def hasDeclKeyword (s : List Char) : Bool :=
  jsIncludes s (str "contract ") || jsIncludes s (str "interface ") ||
  jsIncludes s (str "library ")

/-- Steps 1–3 of the Sanitizer: fence stripping, explanatory-pattern removal
and the line loop (everything before the license/pragma insertions). -/
def cleanSteps3 (code : List Char) : List Char :=
  joinNl (procLines (splitNl (removeExplanatory (stripFences code))) false false 0)

/-- Steps 1–5 of the Sanitizer (everything before the structural check):
fence stripping, explanatory-pattern removal, the line loop, license
prepending and pragma insertion.  The structural check of
`validateAndCleanContract` is evaluated on this text. -/
def cleanPipeline (code : List Char) : List Char :=
  ensurePragma (ensureLicense (cleanSteps3 code))

/-- `ContractTemplateService.validateAndCleanContract`: `.error` models a
`throw`; a non-string argument is outside the model, and `!contractCode` on a
string argument holds exactly for the empty string. -/
def validateAndCleanContract (code : List Char) : Except (List Char) (List Char) :=
  if code.isEmpty then .error (str "Invalid contract code received from LLM")
  else
    let cleaned := cleanPipeline code
    if hasDeclKeyword cleaned then .ok (jsTrim (collapseNl cleaned))
    else .error (str "Generated code does not contain a valid Solidity contract")

-- Behavioural checks of the model on concrete traces.
example :
    validateAndCleanContract (str "contract C \x7b\x7d") =
      .ok (str "// SPDX-License-Identifier: MIT\npragma solidity ^0.8.19;\ncontract C \x7b\x7d") := by
  decide
example :
    validateAndCleanContract (str "pragma solidity ^0.8.19;\nuint contract ") =
      .ok (str "// SPDX-License-Identifier: MIT\npragma solidity ^0.8.19;\nuint contract") := by
  decide
example :
    hasDeclKeyword (str "// SPDX-License-Identifier: MIT\npragma solidity ^0.8.19;\nuint contract") = false := by
  decide
example :
    validateAndCleanContract
      (str "// SPDX-License-Identifier: MIT\npragma solidity ^0.8.19;\ncontract C \x7b\x7d") =
      .ok (str "// SPDX-License-Identifier: MIT\npragma solidity ^0.8.19;\ncontract C \x7b\x7d") := by
  decide

/-! ## Contract classification (`ContractTemplateService`) -/

structure ContractTypeInfo where
  ctype : List Char
  keywords : List (List Char)
  cname : List Char

/-- `this.contractTypes`, in declaration order (JS object string keys preserve
insertion order, so `Object.entries` enumerates them in this order). -/
def contractTypes : List ContractTypeInfo :=
  [⟨str "erc20",
    [str "token", str "erc20", str "coin", str "currency", str "payment", str "fungible"],
    str "ERC-20 Token Contract"⟩,
   ⟨str "erc721",
    [str "nft", str "collectible", str "art", str "unique", str "non-fungible", str "erc721"],
    str "ERC-721 NFT Contract"⟩,
   ⟨str "multisig",
    [str "multisig", str "multi-signature", str "wallet", str "governance", str "voting"],
    str "Multi-Signature Wallet"⟩,
   ⟨str "crowdfunding",
    [str "crowdfunding", str "fundraising", str "ico", str "investment", str "raise"],
    str "Crowdfunding Contract"⟩,
   ⟨str "defi",
    [str "defi", str "lending", str "staking", str "yield", str "liquidity", str "farming"],
    str "DeFi Protocol Contract"⟩,
   ⟨str "governance",
    [str "dao", str "governance", str "voting", str "proposal", str "democracy"],
    str "DAO Governance Contract"⟩,
   ⟨str "custom",
    [str "custom", str "specific", str "tailored", str "bespoke"],
    str "Custom Smart Contract"⟩]

/-- The nested `for` loops of `detectContractType`: first type (in declaration
order) one of whose keywords occurs in the lowered text. -/
def detectGo (text : List Char) : List ContractTypeInfo → List Char
  | [] => str "custom"
  | e :: rest => if e.keywords.any (fun k => jsIncludes text k) then e.ctype else detectGo text rest

/-- `ContractTemplateService.detectContractType`. -/
def detectContractType (requirements : List Char) : List Char :=
  detectGo (jsToLower requirements) contractTypes

/-- Modelled from the spec wording of the Category Classifier contract, for
comparison with `detectContractType`: lower-case the input, return the first
category in the fixed declared order one of whose keywords occurs as a
substring, and the generic category if none matches. -/
def classifySpec (requirements : List Char) : List Char :=
  match contractTypes.find?
      (fun e => e.keywords.any (fun k => jsIncludes (jsToLower requirements) k)) with
  | some e => e.ctype
  | none => str "custom"

/-! ## Prompt construction -/

/-- The fixed `basePrompt` block of `getSystemPrompt`. -/
def basePrompt : List Char :=
  str "You are an expert Solidity smart contract developer with deep knowledge of blockchain security, gas optimization, and best practices. Your task is to generate production-ready smart contracts based on user requirements.\n\nREQUIREMENTS:\n- Use Solidity ^0.8.19 or later\n- Follow OpenZeppelin standards when applicable\n- Include comprehensive natspec documentation\n- Implement proper security measures (reentrancy guards, access controls, etc.)\n- Optimize for gas efficiency\n- Include proper error handling with custom errors\n- Use events for important state changes\n- Follow the Checks-Effects-Interactions pattern\n\nSECURITY CONSIDERATIONS:\n- Always validate inputs\n- Use SafeMath patterns (though not required in 0.8+)\n- Implement proper access controls\n- Consider potential attack vectors\n- Use reentrancy guards where needed\n\nOUTPUT FORMAT:\n- Return ONLY the Solidity contract code\n- Start with SPDX license identifier\n- Include pragma statement\n- Add comprehensive comments and documentation\n- No explanatory text before or after the code"

/-- The per-type blocks of `getTypeSpecificPrompt`. -/
def typeSpecificPrompts : List (List Char × List Char) :=
  [(str "erc20",
    str "SPECIFIC REQUIREMENTS FOR ERC-20 TOKEN:\n- Implement full ERC-20 interface\n- Include mint/burn functionality if needed\n- Add owner controls for token management\n- Consider implementing pausable functionality\n- Include proper decimals handling"),
   (str "erc721",
    str "SPECIFIC REQUIREMENTS FOR ERC-721 NFT:\n- Implement full ERC-721 interface with metadata extension\n- Include proper tokenURI functionality\n- Add minting controls and supply limits\n- Consider royalty standards (ERC-2981) if applicable\n- Include batch operations for gas efficiency"),
   (str "multisig",
    str "SPECIFIC REQUIREMENTS FOR MULTISIG WALLET:\n- Implement multi-signature transaction approval system\n- Include owner management functionality\n- Add transaction proposal and execution system\n- Implement proper threshold controls\n- Include emergency recovery mechanisms"),
   (str "crowdfunding",
    str "SPECIFIC REQUIREMENTS FOR CROWDFUNDING:\n- Implement funding goals and deadlines\n- Add refund mechanisms for failed campaigns\n- Include contributor tracking and rewards\n- Add fund withdrawal controls for campaign owners\n- Consider milestone-based funding release"),
   (str "defi",
    str "SPECIFIC REQUIREMENTS FOR DEFI PROTOCOL:\n- Implement secure token handling and transfers\n- Add proper price oracle integration considerations\n- Include yield calculation mechanisms\n- Implement emergency pause functionality\n- Add proper liquidity management controls"),
   (str "governance",
    str "SPECIFIC REQUIREMENTS FOR DAO GOVERNANCE:\n- Implement proposal creation and voting mechanisms\n- Add vote delegation functionality\n- Include timelock controls for execution\n- Add quorum and threshold management\n- Consider vote weight calculation methods")]

/-- The `custom` block of `getTypeSpecificPrompt` (also the `|| prompts.custom`
fallback). -/
def customTypePrompt : List Char :=
  str "SPECIFIC REQUIREMENTS FOR CUSTOM CONTRACT:\n- Analyze the requirements carefully to determine the best implementation approach\n- Follow established patterns from similar contract types\n- Implement all necessary functionality as specified\n- Ensure the contract is secure and gas-efficient"

/-- `getTypeSpecificPrompt`: `prompts[contractType] || prompts.custom`. -/
def getTypeSpecificPrompt (contractType : List Char) : List Char :=
  match typeSpecificPrompts.find? (fun p => decide (p.1 = contractType)) with
  | some p => p.2
  | none => customTypePrompt

/-- `getSystemPrompt`. -/
def getSystemPrompt (contractType : List Char) : List Char :=
  basePrompt ++ str "\n\n" ++ getTypeSpecificPrompt contractType

/-- The optional `options` hints of a generation request. -/
structure GenOptions where
  tokenName : Option (List Char)
  tokenSymbol : Option (List Char)
  initialSupply : Option (List Char)
  additionalFeatures : Option (List (List Char))
deriving DecidableEq

/-- JS truthiness of an optional string field (`undefined` and `''` are
falsy). -/
def optTruthy : Option (List Char) → Bool
  | some v => !v.isEmpty
  | none => false

/-- `features.join(', ')`. -/
def joinCommaSpace : List (List Char) → List Char
  | [] => []
  | [l] => l
  | l :: ls => l ++ str ", " ++ joinCommaSpace ls

/-- `generateUserPrompt`. -/
def generateUserPrompt (requirements contractType : List Char) (options : GenOptions) :
    List Char :=
  let tname :=
    match contractTypes.find? (fun e => decide (e.ctype = contractType)) with
    | some e => if e.cname.isEmpty then str "smart contract" else e.cname
    | none => str "smart contract"
  let p0 := str "Please generate a " ++ tname ++ str " based on the following requirements:\n\n"
  let p1 := p0 ++ str "REQUIREMENTS:\n" ++ requirements ++ str "\n\n"
  let p2 := if optTruthy options.tokenName then
      p1 ++ str "TOKEN NAME: " ++ options.tokenName.getD [] ++ str "\n" else p1
  let p3 := if optTruthy options.tokenSymbol then
      p2 ++ str "TOKEN SYMBOL: " ++ options.tokenSymbol.getD [] ++ str "\n" else p2
  let p4 := if optTruthy options.initialSupply then
      p3 ++ str "INITIAL SUPPLY: " ++ options.initialSupply.getD [] ++ str "\n" else p3
  let p5 :=
    match options.additionalFeatures with
    | some fs => if 0 < fs.length then
        p4 ++ str "ADDITIONAL FEATURES: " ++ joinCommaSpace fs ++ str "\n" else p4
    | none => p4
  p5 ++ str "\nPlease ensure the contract is secure, well-documented, and follows best practices. Generate only the Solidity code without any additional explanations."

/-! ## Rate limiting (`checkRateLimit` over the module-level `rateLimitMap`) -/

/-- The in-memory `rateLimitMap`, modelled as an association list from client
identity to the recorded timestamp list (insertion order preserved, as for a JS
`Map`). -/
abbrev RLMap := List (List Char × List Nat)

/-- `rateLimitMap.get(ip)`. -/
def mapGet (m : RLMap) (k : List Char) : Option (List Nat) :=
  (m.find? (fun e => decide (e.1 = k))).map (·.2)

/-- `rateLimitMap.set(ip, v)`: replace in place or append. -/
def mapSet : RLMap → List Char → List Nat → RLMap
  | [], k, v => [(k, v)]
  | (k', v') :: rest, k, v =>
    if k' = k then (k, v) :: rest else (k', v') :: mapSet rest k v

/-- The recorded timestamps for one identity (`rateLimitMap.get(ip) || []`). -/
def getReq (m : RLMap) (k : List Char) : List Nat := (mapGet m k).getD []

/-- `checkRateLimit(ip, limit = 10, window = 15*60*1000)` at time `now`:
prune entries outside the window, reject (without writing) when the pruned
count has reached the limit, otherwise record `now` and admit.  With `Nat`
subtraction `now - time < window` agrees with the JS comparison also for
timestamps in the future of `now` (both sides keep them). -/
def checkRateLimit (m : RLMap) (ip : List Char) (now : Nat)
    (limit : Nat := 10) (window : Nat := 15 * 60 * 1000) : Bool × RLMap :=
  let requests := getReq m ip
  let validRequests := requests.filter (fun time => now - time < window)
  if limit ≤ validRequests.length then (false, m)
  else (true, mapSet m ip (validRequests ++ [now]))

/-- A sequence of admission checks for one identity at the given times. -/
def runCalls (ip : List Char) : RLMap → List Nat → List Bool × RLMap
  | st, [] => ([], st)
  | st, t :: ts =>
    let c := checkRateLimit st ip t
    let r := runCalls ip c.2 ts
    (c.1 :: r.1, r.2)

/-! ## Provider gateway retry loop (`LLMService.generateContract`) -/

/-- The external provider as an oracle: one network attempt, given the system
prompt, the user prompt and the attempt number, either returns the response
text or fails (network error, timeout, or malformed envelope — all of which
surface as a thrown error in `callOpenAI`/`callAnthropic`). -/
abbrev Backend := List Char → List Char → Nat → Except (List Char) (List Char)

/-- `this.maxRetries` (fixed in the `LLMService` constructor). -/
def llmMaxRetries : Nat := 3

/-- The retry `for` loop of `generateContract`, returning the result, the
number of attempts actually made, and the list of backoff delays awaited (in
milliseconds, `Math.pow(2, attempt) * 1000` after each failed non-final
attempt).  `fuel` drives structural recursion; the loop runs at most
`llmMaxRetries - attempt + 1` further iterations, so initial fuel
`llmMaxRetries` is never exhausted. -/
def genAttemptsF (b : Backend) (sys usr : List Char) :
    Nat → Nat → Except (List Char) (List Char) × Nat × List Nat
  | _, 0 => (.error [], 0, [])
  | attempt, fuel + 1 =>
    match b sys usr attempt with
    | .ok t => (.ok t, 1, [])
    | .error m =>
      if attempt = llmMaxRetries then
        (.error (str "LLM generation failed after 3 attempts: " ++ m), 1, [])
      else
        let r := genAttemptsF b sys usr (attempt + 1) fuel
        (r.1, r.2.1 + 1, (2 ^ attempt * 1000) :: r.2.2)

/-- `LLMService.generateContract` (attempt counter starts at 1). -/
def generateContract (b : Backend) (sys usr : List Char) :
    Except (List Char) (List Char) × Nat × List Nat :=
  genAttemptsF b sys usr 1 llmMaxRetries

/-! ## The generate handler (`api/llm-generate`) -/

/-- The POST body of a generation request (fields may be absent; only string
`requirements` are modelled, matching the `typeof` guard). -/
structure ReqBody where
  requirements : Option (List Char)
  contractType : Option (List Char)
  options : GenOptions
deriving DecidableEq

/-- The caller-visible outcome of the handler: 429, 400, 500 or 200 with the
cleaned contract and detected type. -/
inductive HandlerRes where
  | rateLimited
  | validationError (msg : List Char)
  | generationError (details : List Char)
  | success (contract : List Char) (contractType : List Char)
deriving DecidableEq

/-- The main POST handler: rate-limit gate, requirements validation, type
detection (`contractType || detectContractType(...)`), prompt construction,
provider call with retries, sanitization, response.  Returns the result, the
updated rate-limit map, and the number of provider attempts made. -/
def handler (st : RLMap) (now : Nat) (ip : List Char) (body : ReqBody) (b : Backend) :
    HandlerRes × RLMap × Nat :=
  let ck := checkRateLimit st ip now
  if !ck.1 then (.rateLimited, ck.2, 0)
  else
    match body.requirements with
    | none => (.validationError (str "Requirements must be at least 10 characters long"), ck.2, 0)
    | some req =>
      if req.length < 10 then
        (.validationError (str "Requirements must be at least 10 characters long"), ck.2, 0)
      else if 5000 < req.length then
        (.validationError (str "Requirements must not exceed 5000 characters"), ck.2, 0)
      else
        let detectedType :=
          match body.contractType with
          | some t => if t.isEmpty then detectContractType req else t
          | none => detectContractType req
        let sys := getSystemPrompt detectedType
        let usr := generateUserPrompt req detectedType body.options
        let g := generateContract b sys usr
        match g.1 with
        | .error m => (.generationError m, ck.2, g.2.1)
        | .ok raw =>
          match validateAndCleanContract raw with
          | .error m => (.generationError m, ck.2, g.2.1)
          | .ok cleaned => (.success cleaned detectedType, ck.2, g.2.1)

/-- Options object with no hints, for concrete runs. -/
def noOptions : GenOptions := ⟨none, none, none, none⟩

example : detectContractType (str "Create a Staking contract") = str "defi" := by decide
example : detectContractType (str "do something else entirely") = str "custom" := by decide
example :
    (checkRateLimit [(str "a", [0, 1, 2, 3, 4, 5, 6, 7, 8, 9])] (str "a") 10).1 = false := by
  decide

/-! ## Shared helper lemmas -/

/-- On a successful sanitization the structural check held on the pre-check
text and the result is that text after blank-line collapsing and trimming. -/
lemma sanitize_ok_shape {raw o : List Char} (h : validateAndCleanContract raw = .ok o) :
    hasDeclKeyword (cleanPipeline raw) = true ∧ o = jsTrim (collapseNl (cleanPipeline raw)) := by
  unfold validateAndCleanContract at h
  dsimp only [] at h
  split at h
  · exact absurd h (by simp)
  · split at h
    · exact ⟨by assumption, by injection h with h; exact h.symm⟩
    · exact absurd h (by simp)

/-- Setting a key makes `getReq` return the written value. -/
lemma getReq_mapSet (m : RLMap) (k : List Char) (v : List Nat) :
    getReq (mapSet m k v) k = v := by
  induction m with
  | nil => simp [mapSet, getReq, mapGet, List.find?]
  | cons e rest ih =>
    obtain ⟨k', v'⟩ := e
    by_cases hk : k' = k
    · subst hk; simp [mapSet, getReq, mapGet, List.find?]
    · simp only [mapSet, if_neg hk]
      simpa [getReq, mapGet, List.find?, hk] using ih

/-- An admitted check records `now` after pruning. -/
lemma checkRateLimit_admit_eq (m : RLMap) (ip : List Char) (now limit window : Nat)
    (h : (checkRateLimit m ip now limit window).1 = true) :
    checkRateLimit m ip now limit window =
      (true, mapSet m ip ((getReq m ip).filter (fun time => now - time < window) ++ [now])) := by
  unfold checkRateLimit at h ⊢
  dsimp only [] at h ⊢
  split at h
  · simp at h
  · rename_i hc
    simp [hc]

/-- A backend that fails on every attempt exhausts the three-attempt budget,
produces the two backoff waits, and surfaces the final message. -/
lemma gen_all_fail_univ (b : Backend) (sys usr e : List Char)
    (hb : ∀ a, b sys usr a = .error e) :
    generateContract b sys usr =
      (.error (str "LLM generation failed after 3 attempts: " ++ e), 3,
        [2 ^ 1 * 1000, 2 ^ 2 * 1000]) := by
  simp [generateContract, genAttemptsF, hb 1, hb 2, hb 3, llmMaxRetries]

/-! ## C2 -/

lemma detectGo_eq_find (text : List Char) :
    ∀ ts : List ContractTypeInfo,
      detectGo text ts =
        (match ts.find? (fun e => e.keywords.any (fun k => jsIncludes text k)) with
         | some e => e.ctype
         | none => str "custom")
  | [] => by simp [detectGo]
  | e :: rest => by
    by_cases hk : e.keywords.any (fun k => jsIncludes text k)
    · simp [detectGo, hk, List.find?_cons_of_pos]
    · simp only [detectGo, hk, if_false, Bool.false_eq_true]
      rw [List.find?_cons_of_neg _ (by simpa using hk)]
      exact detectGo_eq_find text rest

/-- C2: `detectContractType` lower-cases its input and returns the first
category, in the fixed declared order (erc20, erc721, multisig, crowdfunding,
defi, governance, custom), one of whose keywords occurs as a substring of the
lowered text, and the generic category `custom` when none matches; in
particular an earlier-declared category beats a later one whenever both match,
as the concrete tie-break instance shows (`wallet voting dao` matches both
multisig and governance). -/
theorem detectContractType_eq_firstMatch :
    (∀ requirements : List Char, detectContractType requirements = classifySpec requirements) ∧
    detectContractType (str "A wallet voting dao") = str "multisig" := by
  constructor
  · intro r
    unfold detectContractType classifySpec
    exact detectGo_eq_find (jsToLower r) contractTypes
  · decide

/-! ## C3 -/

/-- C3: with the fixed attempt budget `maxRetries = 3`, a backend failing on
every attempt makes exactly 3 attempts, waits `2^1` and `2^2` seconds (stored
in milliseconds, `Math.pow(2, attempt) * 1000`) after the two failed non-final
attempts, and fails carrying the last underlying message; a backend failing on
attempts 1–2 and succeeding on attempt 3 yields the success text after the
same two waits. -/
theorem generateContract_retry_policy
    (b1 b2 : Backend) (sys1 usr1 sys2 usr2 m1 m2 m3 e1 e2 s : List Char)
    (hf1 : b1 sys1 usr1 1 = .error m1) (hf2 : b1 sys1 usr1 2 = .error m2)
    (hf3 : b1 sys1 usr1 3 = .error m3)
    (hg1 : b2 sys2 usr2 1 = .error e1) (hg2 : b2 sys2 usr2 2 = .error e2)
    (hg3 : b2 sys2 usr2 3 = .ok s) :
    generateContract b1 sys1 usr1 =
      (.error (str "LLM generation failed after 3 attempts: " ++ m3), 3,
        [2 ^ 1 * 1000, 2 ^ 2 * 1000]) ∧
    generateContract b2 sys2 usr2 = (.ok s, 3, [2 ^ 1 * 1000, 2 ^ 2 * 1000]) := by
  constructor
  · simp [generateContract, genAttemptsF, hf1, hf2, hf3, llmMaxRetries]
  · simp [generateContract, genAttemptsF, hg1, hg2, hg3, llmMaxRetries]

theorem generateContract_retry_policy_witness :
    generateContract (fun _ _ a => .error (str "boom" ++ [Char.ofNat (48 + a)]))
        (str "s") (str "u") =
      (.error (str "LLM generation failed after 3 attempts: boom3"), 3, [2000, 4000]) ∧
    generateContract (fun _ _ a => if a = 3 then .ok (str "text") else .error (str "transient"))
        (str "s") (str "u") =
      (.ok (str "text"), 3, [2000, 4000]) :=
  generateContract_retry_policy
    (fun _ _ a => .error (str "boom" ++ [Char.ofNat (48 + a)]))
    (fun _ _ a => if a = 3 then .ok (str "text") else .error (str "transient"))
    (str "s") (str "u") (str "s") (str "u")
    (str "boom1") (str "boom2") (str "boom3") (str "transient") (str "transient") (str "text")
    (by decide) (by decide) (by decide) (by decide) (by decide) (by decide)

/-! ## C9 -/

/-- C9: a rejected `checkRateLimit` call leaves the map — and in particular the
identity's recorded timestamps — completely unchanged (the pruned list is not
even written back), so no timestamp is recorded and rejected requests consume
no admission slot. -/
theorem checkRateLimit_reject_no_mutation (m : RLMap) (ip : List Char) (now limit window : Nat)
    (h : (checkRateLimit m ip now limit window).1 = false) :
    (checkRateLimit m ip now limit window).2 = m ∧
    getReq (checkRateLimit m ip now limit window).2 ip = getReq m ip := by
  unfold checkRateLimit at h ⊢
  dsimp only [] at h ⊢
  split at h
  · rename_i hc
    simp [hc]
  · simp at h

theorem checkRateLimit_reject_no_mutation_witness :
    (checkRateLimit [(str "a", [0, 0, 0, 0, 0, 0, 0, 0, 0, 0])] (str "a") 5).1 = false ∧
    (checkRateLimit [(str "a", [0, 0, 0, 0, 0, 0, 0, 0, 0, 0])] (str "a") 5).2 =
      [(str "a", [0, 0, 0, 0, 0, 0, 0, 0, 0, 0])] :=
  ⟨by decide,
   (checkRateLimit_reject_no_mutation [(str "a", [0, 0, 0, 0, 0, 0, 0, 0, 0, 0])]
      (str "a") 5 10 900000 (by decide)).1⟩

/-! ## C4 -/

lemma runCalls_admits (ip : List Char) :
    ∀ (ts prev : List Nat) (st : RLMap),
      getReq st ip = prev →
      (∀ a ∈ prev ++ ts, ∀ t ∈ ts, t - a < 900000) →
      (prev ++ ts).length ≤ 10 →
      (runCalls ip st ts).1 = List.replicate ts.length true ∧
      getReq (runCalls ip st ts).2 ip = prev ++ ts
  | [], prev, st, hst, _, _ => by simp [runCalls, hst]
  | t :: ts, prev, st, hst, hwin, hlen => by
    have hfilter : prev.filter (fun time => decide (t - time < 900000)) = prev := by
      apply List.filter_eq_self.mpr
      intro a ha
      exact decide_eq_true (hwin a (List.mem_append_left _ ha) t (List.mem_cons_self _ _))
    have hlt : prev.length < 10 := by
      have h2 := hlen
      simp [List.length_append] at h2
      omega
    have hck : checkRateLimit st ip t = (true, mapSet st ip (prev ++ [t])) := by
      unfold checkRateLimit
      dsimp only []
      rw [hst, hfilter, if_neg (by omega)]
    have hrec := runCalls_admits ip ts (prev ++ [t]) (mapSet st ip (prev ++ [t]))
      (getReq_mapSet _ _ _)
      (by
        intro a ha u hu
        apply hwin a _ u (List.mem_cons_of_mem _ hu)
        rcases List.mem_append.mp ha with h | h
        · rcases List.mem_append.mp h with h' | h'
          · exact List.mem_append_left _ h'
          · simp only [List.mem_singleton] at h'
            subst h'
            exact List.mem_append_right _ (List.mem_cons_self _ _)
        · exact List.mem_append_right _ (List.mem_cons_of_mem _ h))
      (by
        simp only [List.length_append, List.length_cons, List.length_nil] at hlen ⊢
        omega)
    unfold runCalls
    dsimp only []
    rw [hck]
    refine ⟨?_, ?_⟩
    · simpa [List.replicate_succ] using hrec.1
    · simpa using hrec.2

/-- C4: from an empty record, any `N ≤ 10` admission checks for one identity
whose timestamps all lie within one 15-minute (900000 ms) window are all
admitted; when `N = 10`, an eleventh check still inside the window of all
recorded timestamps is rejected; and a later check from which the window has
fully elapsed for every recorded timestamp is admitted again. -/
theorem checkRateLimit_window_policy (ip : List Char) (ts : List Nat) (tNext tLater : Nat)
    (hwin : ∀ a ∈ ts, ∀ t ∈ ts, t - a < 900000)
    (hlen : ts.length ≤ 10) :
    (runCalls ip [] ts).1 = List.replicate ts.length true ∧
    (ts.length = 10 → (∀ a ∈ ts, tNext - a < 900000) →
      (checkRateLimit (runCalls ip [] ts).2 ip tNext).1 = false) ∧
    ((∀ a ∈ ts, 900000 ≤ tLater - a) →
      (checkRateLimit (runCalls ip [] ts).2 ip tLater).1 = true) := by
  have hmain := runCalls_admits ip ts [] [] (by simp [getReq, mapGet, List.find?])
    (by simpa using hwin) (by simpa using hlen)
  refine ⟨hmain.1, ?_, ?_⟩
  · intro h10 hnext
    unfold checkRateLimit
    dsimp only []
    rw [hmain.2]
    have hf : List.filter (fun time => decide (tNext - time < 15 * 60 * 1000)) ([] ++ ts) = ts := by
      simp only [List.nil_append]
      apply List.filter_eq_self.mpr
      intro a ha
      simp only [decide_eq_true_eq]
      have := hnext a ha
      omega
    rw [hf, if_pos (by omega)]
  · intro hlater
    unfold checkRateLimit
    dsimp only []
    rw [hmain.2]
    have hf : List.filter (fun time => decide (tLater - time < 15 * 60 * 1000)) ([] ++ ts) = [] := by
      simp only [List.nil_append]
      apply List.filter_eq_nil_iff.mpr
      intro a ha
      simp only [decide_eq_true_eq]
      have := hlater a ha
      omega
    rw [hf, if_neg (by simp)]

theorem checkRateLimit_window_policy_witness :
    ((runCalls (str "w4") [] [0, 1, 2, 3, 4, 5, 6, 7, 8, 9]).1 =
      List.replicate 10 true) ∧
    ((checkRateLimit (runCalls (str "w4") [] [0, 1, 2, 3, 4, 5, 6, 7, 8, 9]).2
        (str "w4") 10).1 = false) ∧
    ((checkRateLimit (runCalls (str "w4") [] [0, 1, 2, 3, 4, 5, 6, 7, 8, 9]).2
        (str "w4") 900009).1 = true) := by
  have h := checkRateLimit_window_policy (str "w4") [0, 1, 2, 3, 4, 5, 6, 7, 8, 9] 10 900009
    (by decide) (by decide)
  exact ⟨h.1, h.2.1 (by decide) (by decide), h.2.2 (by decide)⟩

/-! ## C10 -/

/-- C10: once the rate-limit gate admits a request, the admission timestamp is
recorded before the requirements are validated, so a request that then fails
with a `ValidationError` (short requirements) or with a provider failure still
consumes one admission slot: the stored record for the identity becomes the
pruned list with `now` appended even though an error is returned. -/
theorem handler_records_admission_before_validation
    (st : RLMap) (now : Nat) (ip : List Char) (b : Backend)
    (body1 body2 : ReqBody) (req1 req2 e : List Char)
    (hadm : (checkRateLimit st ip now).1 = true)
    (h1 : body1.requirements = some req1) (h1s : req1.length < 10)
    (h2 : body2.requirements = some req2) (h2a : 10 ≤ req2.length) (h2b : req2.length ≤ 5000)
    (hb : ∀ sys usr a, b sys usr a = .error e) :
    (handler st now ip body1 b =
      (.validationError (str "Requirements must be at least 10 characters long"),
       mapSet st ip ((getReq st ip).filter (fun time => now - time < 15 * 60 * 1000) ++ [now]),
       0)) ∧
    (handler st now ip body2 b =
      (.generationError (str "LLM generation failed after 3 attempts: " ++ e),
       mapSet st ip ((getReq st ip).filter (fun time => now - time < 15 * 60 * 1000) ++ [now]),
       3)) ∧
    getReq (handler st now ip body1 b).2.1 ip =
      (getReq st ip).filter (fun time => now - time < 15 * 60 * 1000) ++ [now] ∧
    getReq (handler st now ip body2 b).2.1 ip =
      (getReq st ip).filter (fun time => now - time < 15 * 60 * 1000) ++ [now] := by
  have hck := checkRateLimit_admit_eq st ip now 10 (15 * 60 * 1000) hadm
  have hn1 : ¬(req2.length < 10) := by omega
  have hn2 : ¬(5000 < req2.length) := by omega
  have hpart1 : handler st now ip body1 b =
      (.validationError (str "Requirements must be at least 10 characters long"),
       mapSet st ip ((getReq st ip).filter (fun time => now - time < 15 * 60 * 1000) ++ [now]),
       0) := by
    unfold handler
    dsimp only []
    rw [hck, h1]
    simp [h1s]
  have hpart2 : handler st now ip body2 b =
      (.generationError (str "LLM generation failed after 3 attempts: " ++ e),
       mapSet st ip ((getReq st ip).filter (fun time => now - time < 15 * 60 * 1000) ++ [now]),
       3) := by
    unfold handler
    dsimp only []
    rw [hck, h2]
    have hgen : ∀ sys usr, generateContract b sys usr =
        (.error (str "LLM generation failed after 3 attempts: " ++ e), 3,
          [2 ^ 1 * 1000, 2 ^ 2 * 1000]) :=
      fun sys usr => gen_all_fail_univ b sys usr e (hb sys usr)
    simp [hn1, hn2, hgen]
  refine ⟨hpart1, hpart2, ?_, ?_⟩
  · rw [hpart1]
    exact getReq_mapSet _ _ _
  · rw [hpart2]
    exact getReq_mapSet _ _ _

theorem handler_records_admission_before_validation_witness :
    (handler [] 7 (str "w10") ⟨some (str "short"), none, noOptions⟩
        (fun _ _ _ => .error (str "down")) =
      (.validationError (str "Requirements must be at least 10 characters long"),
       [(str "w10", [7])], 0)) ∧
    (handler [] 7 (str "w10") ⟨some (str "a valid requirement text"), none, noOptions⟩
        (fun _ _ _ => .error (str "down")) =
      (.generationError (str "LLM generation failed after 3 attempts: down"),
       [(str "w10", [7])], 3)) := by
  have h := handler_records_admission_before_validation [] 7 (str "w10")
    (fun _ _ _ => .error (str "down"))
    ⟨some (str "short"), none, noOptions⟩
    ⟨some (str "a valid requirement text"), none, noOptions⟩
    (str "short") (str "a valid requirement text") (str "down")
    (by decide) rfl (by decide) rfl (by decide) (by decide) (fun _ _ _ => rfl)
  exact ⟨by simpa using h.1, by simpa using h.2.1⟩

/-! ## C5 (corrected) -/

/-- C5 counterexample: an explicit category outside the supported set is not
rejected.  With valid requirements and `contractType: 'unsupportedtype'` the
handler does not return a `ValidationError`; it calls the provider once (the
custom prompt fallback is used) and answers success, echoing the unsupported
category. -/
theorem handler_unsupported_category_cex :
    handler [] 0 (str "203.0.113.7")
        ⟨some (str "Create a bespoke registry"), some (str "unsupportedtype"), noOptions⟩
        (fun _ _ _ =>
          .ok (str "// SPDX-License-Identifier: MIT\npragma solidity ^0.8.19;\ncontract C \x7b\x7d")) =
      (.success
        (str "// SPDX-License-Identifier: MIT\npragma solidity ^0.8.19;\ncontract C \x7b\x7d")
        (str "unsupportedtype"),
       [(str "203.0.113.7", [0])], 1) := by
  decide

/-- C5 (amended): when the admission gate passes and the requirements are
structurally invalid — absent, shorter than 10 characters, or longer than 5000
characters — the handler returns a `ValidationError` immediately and makes no
provider attempt.  (An explicit unsupported category, by contrast, is not
validated: it flows into prompt construction with the custom fallback, as the
counterexample shows.) -/
theorem handler_validation_short_circuit
    (st : RLMap) (now : Nat) (ip : List Char) (body : ReqBody) (b : Backend)
    (hadm : (checkRateLimit st ip now).1 = true)
    (hbad : body.requirements = none ∨
      ∃ req, body.requirements = some req ∧ (req.length < 10 ∨ 5000 < req.length)) :
    (∃ m, (handler st now ip body b).1 = .validationError m) ∧
    (handler st now ip body b).2.2 = 0 := by
  have hck := checkRateLimit_admit_eq st ip now 10 (15 * 60 * 1000) hadm
  rcases hbad with hnone | ⟨req, hsome, hshort | hlong⟩
  · have : handler st now ip body b =
        (.validationError (str "Requirements must be at least 10 characters long"),
         mapSet st ip ((getReq st ip).filter (fun time => now - time < 15 * 60 * 1000) ++ [now]),
         0) := by
      unfold handler
      dsimp only []
      rw [hck, hnone]
      simp
    rw [this]
    exact ⟨⟨_, rfl⟩, rfl⟩
  · have : handler st now ip body b =
        (.validationError (str "Requirements must be at least 10 characters long"),
         mapSet st ip ((getReq st ip).filter (fun time => now - time < 15 * 60 * 1000) ++ [now]),
         0) := by
      unfold handler
      dsimp only []
      rw [hck, hsome]
      simp [hshort]
    rw [this]
    exact ⟨⟨_, rfl⟩, rfl⟩
  · have hn1 : ¬(req.length < 10) := by omega
    have : handler st now ip body b =
        (.validationError (str "Requirements must not exceed 5000 characters"),
         mapSet st ip ((getReq st ip).filter (fun time => now - time < 15 * 60 * 1000) ++ [now]),
         0) := by
      unfold handler
      dsimp only []
      rw [hck, hsome]
      simp [hn1, hlong]
    rw [this]
    exact ⟨⟨_, rfl⟩, rfl⟩

theorem handler_validation_short_circuit_witness :
    (∃ m, (handler [] 3 (str "w5") ⟨some (str "tiny"), none, noOptions⟩
        (fun _ _ _ => .error (str "unused"))).1 = .validationError m) ∧
    (handler [] 3 (str "w5") ⟨some (str "tiny"), none, noOptions⟩
        (fun _ _ _ => .error (str "unused"))).2.2 = 0 :=
  handler_validation_short_circuit [] 3 (str "w5") ⟨some (str "tiny"), none, noOptions⟩
    (fun _ _ _ => .error (str "unused")) (by decide)
    (Or.inr ⟨str "tiny", rfl, Or.inl (by decide)⟩)

/-! ## C8 -/

/-- C8: `validateAndCleanContract` fails exactly when the structural check
fails, i.e. when the text produced by the cleaning steps (fence stripping,
narrative removal, brace-depth truncation, license/pragma insertion) contains
none of `'contract '`, `'interface '`, `'library '`; the cleaning steps
themselves are total and never fail (they are plain functions in this model,
and the empty-input guard coincides with the structural check, since the
cleaned empty string never contains a declaration keyword). -/
theorem sanitize_error_iff_no_declaration (code : List Char) :
    (∃ m, validateAndCleanContract code = .error m) ↔
      hasDeclKeyword (cleanPipeline code) = false := by
  unfold validateAndCleanContract
  dsimp only []
  by_cases hempty : code.isEmpty
  · rw [if_pos hempty]
    have hcode : code = [] := by
      cases code with
      | nil => rfl
      | cons c s => simp [List.isEmpty] at hempty
    subst hcode
    constructor
    · intro _
      decide
    · intro _
      exact ⟨_, rfl⟩
  · rw [if_neg hempty]
    by_cases hk : hasDeclKeyword (cleanPipeline code) = true
    · rw [if_pos hk]
      simp [hk]
    · rw [if_neg hk]
      simp only [Bool.not_eq_true] at hk
      simp [hk]

theorem sanitize_error_iff_no_declaration_witness :
    ((∃ m, validateAndCleanContract (str "just prose with no declaration") = .error m) ↔
      hasDeclKeyword (cleanPipeline (str "just prose with no declaration")) = false) :=
  sanitize_error_iff_no_declaration (str "just prose with no declaration")

/-! ## C7 (corrected) -/

/-- C7 counterexample: `sanitize` is not idempotent on every input containing
a declaration keyword.  The input below contains `'contract '`; one
application succeeds (the final `trim` removes the trailing space on which the
keyword check relied), and a second application then fails the structural
check, so `sanitize ∘ sanitize` differs from `sanitize`. -/
theorem sanitize_not_idempotent_cex :
    hasDeclKeyword (str "pragma solidity ^0.8.19;\nuint contract ") = true ∧
    (validateAndCleanContract (str "pragma solidity ^0.8.19;\nuint contract ") =
      .ok (str "// SPDX-License-Identifier: MIT\npragma solidity ^0.8.19;\nuint contract")) ∧
    ((validateAndCleanContract (str "pragma solidity ^0.8.19;\nuint contract ")).bind
        validateAndCleanContract ≠
      validateAndCleanContract (str "pragma solidity ^0.8.19;\nuint contract ")) := by
  refine ⟨by decide, by decide, ?_⟩
  decide

/-- C7 (amended): `sanitize` is idempotent on already-clean input in the sense
that the cleaning pipeline leaves the input unchanged: whenever
`sanitize x = ok x`, applying `sanitize` to the result changes nothing.  Mere
presence of a declaration keyword in `x` is not sufficient, as the
counterexample shows. -/
theorem sanitize_idempotent_on_fixpoint (x : List Char)
    (h : validateAndCleanContract x = .ok x) :
    (validateAndCleanContract x).bind validateAndCleanContract =
      validateAndCleanContract x := by
  rw [h]
  simpa [Except.bind] using h

theorem sanitize_idempotent_on_fixpoint_witness :
    (validateAndCleanContract
        (str "// SPDX-License-Identifier: MIT\npragma solidity ^0.8.19;\ncontract C \x7b\x7d") =
      .ok (str "// SPDX-License-Identifier: MIT\npragma solidity ^0.8.19;\ncontract C \x7b\x7d")) ∧
    ((validateAndCleanContract
        (str "// SPDX-License-Identifier: MIT\npragma solidity ^0.8.19;\ncontract C \x7b\x7d")).bind
          validateAndCleanContract =
      validateAndCleanContract
        (str "// SPDX-License-Identifier: MIT\npragma solidity ^0.8.19;\ncontract C \x7b\x7d")) :=
  ⟨by decide, sanitize_idempotent_on_fixpoint _ (by decide)⟩

/-! ## C1 (corrected) -/

/-- C1 counterexample: a success response whose artifact contains none of the
declaration keywords `'contract '`, `'interface '`, `'library '`.  The raw
provider text passes the Sanitizer (its check runs before the final trim), but
the final `trim` removes the trailing space of the only keyword occurrence, so
the caller receives an artifact without any declaration keyword. -/
theorem handler_success_artifact_keyword_cex :
    (handler [] 0 (str "198.51.100.9")
        ⟨some (str "Create a staking pool"), none, noOptions⟩
        (fun _ _ _ => .ok (str "pragma solidity ^0.8.19;\nuint contract "))).1 =
      .success (str "// SPDX-License-Identifier: MIT\npragma solidity ^0.8.19;\nuint contract")
        (str "defi") ∧
    hasDeclKeyword
        (str "// SPDX-License-Identifier: MIT\npragma solidity ^0.8.19;\nuint contract") =
      false := by
  decide

/-- C1 (amended): every success response carries exactly the Sanitizer output
of some raw provider text — the caller never receives unvalidated provider
output — and the structural keyword check held on the cleaned text at the
point where the Sanitizer evaluates it (before the final blank-line collapse
and trim); the final artifact is that checked text after whitespace
normalisation, which can drop a trailing-space keyword occurrence, so the
keyword is only guaranteed at check time. -/
theorem handler_success_artifact_sanitized
    (st : RLMap) (now : Nat) (ip : List Char) (body : ReqBody) (b : Backend)
    (out ctype : List Char) (st' : RLMap) (n : Nat)
    (h : handler st now ip body b = (.success out ctype, st', n)) :
    ∃ raw, validateAndCleanContract raw = .ok out ∧
      hasDeclKeyword (cleanPipeline raw) = true ∧
      out = jsTrim (collapseNl (cleanPipeline raw)) := by
  unfold handler at h
  dsimp only [] at h
  split at h
  · simp at h
  · split at h
    · simp at h
    · rename_i req hreq
      split at h
      · simp at h
      · split at h
        · simp at h
        · split at h
          · simp at h
          · rename_i raw hraw
            split at h
            · simp at h
            · rename_i cleaned hclean
              simp only [Prod.mk.injEq, HandlerRes.success.injEq] at h
              obtain ⟨⟨hcl, _⟩, _, _⟩ := h
              subst hcl
              exact ⟨raw, hclean, (sanitize_ok_shape hclean).1, (sanitize_ok_shape hclean).2⟩

theorem handler_success_artifact_sanitized_witness :
    ∃ raw, validateAndCleanContract raw =
        .ok (str "// SPDX-License-Identifier: MIT\npragma solidity ^0.8.19;\ncontract W \x7b\x7d") ∧
      hasDeclKeyword (cleanPipeline raw) = true ∧
      (str "// SPDX-License-Identifier: MIT\npragma solidity ^0.8.19;\ncontract W \x7b\x7d") =
        jsTrim (collapseNl (cleanPipeline raw)) :=
  handler_success_artifact_sanitized [] 0 (str "w1")
    ⟨some (str "an erc20 token thing"), none, noOptions⟩
    (fun _ _ _ => .ok (str "contract W \x7b\x7d"))
    (str "// SPDX-License-Identifier: MIT\npragma solidity ^0.8.19;\ncontract W \x7b\x7d")
    (str "erc20") [(str "w1", [0])] 1 (by decide)

/-! ## Counting lemmas for the license/pragma insertion properties (C6) -/

/-- The pattern starts with a non-whitespace character. -/
def startsNonWs : List Char → Bool
  | [] => false
  | p :: _ => !isJsWs p

/-- The pattern ends with a non-whitespace character. -/
def endsNonWs : List Char → Bool
  | [] => false
  | [p] => !isJsWs p
  | _ :: ps => endsNonWs ps

lemma isPrefixOf_cons_cons (p c : Char) (ps cs : List Char) :
    (p :: ps).isPrefixOf (c :: cs) = ((p == c) && ps.isPrefixOf cs) := rfl

lemma isPrefixOf_neq_head {p c : Char} (ps cs : List Char) (h : p ≠ c) :
    (p :: ps).isPrefixOf (c :: cs) = false := by
  simp [isPrefixOf_cons_cons, h]

lemma countOcc_nil (pat : List Char) :
    countOcc [] pat = if pat.isEmpty then 1 else 0 := rfl

lemma countOcc_cons (c : Char) (s pat : List Char) :
    countOcc (c :: s) pat = (if pat.isPrefixOf (c :: s) then 1 else 0) + countOcc s pat := rfl

lemma jsIncludes_cons (c : Char) (s pat : List Char) :
    jsIncludes (c :: s) pat = (pat.isPrefixOf (c :: s) || jsIncludes s pat) := rfl

lemma countOcc_eq_zero_iff (pat : List Char) :
    ∀ s : List Char, (countOcc s pat = 0 ↔ jsIncludes s pat = false)
  | [] => by cases pat <;> simp [countOcc, jsIncludes, List.isEmpty]
  | c :: s => by
    rw [countOcc_cons, jsIncludes_cons]
    rcases h : pat.isPrefixOf (c :: s) with _ | _
    · simpa [h] using countOcc_eq_zero_iff pat s
    · simp [h]

lemma isPrefixOf_append_notMem {pat : List Char} (x : Char) (hpat : x ∉ pat) :
    ∀ (a b : List Char), pat.isPrefixOf (a ++ x :: b) = pat.isPrefixOf a
  | [], b => by
    cases pat with
    | nil => rfl
    | cons p ps =>
      have hp : p ≠ x := fun h => hpat (h ▸ List.mem_cons_self _ _)
      rw [List.nil_append, isPrefixOf_neq_head _ _ hp]
      rfl
  | c :: a, b => by
    cases pat with
    | nil => rfl
    | cons p ps =>
      have hps : x ∉ ps := fun h => hpat (List.mem_cons_of_mem _ h)
      simp only [List.cons_append, isPrefixOf_cons_cons,
        isPrefixOf_append_notMem x hps a b]

lemma countOcc_append_notMem {pat : List Char} (x : Char) (hpat : x ∉ pat) (hne : pat ≠ []) :
    ∀ (a b : List Char), countOcc (a ++ x :: b) pat = countOcc a pat + countOcc b pat
  | [], b => by
    have hp : pat.isPrefixOf (x :: b) = false := by
      cases pat with
      | nil => exact absurd rfl hne
      | cons p ps =>
        exact isPrefixOf_neq_head _ _ (fun h => hpat (h ▸ List.mem_cons_self _ _))
    rw [List.nil_append, countOcc_cons, hp, countOcc_nil]
    have : pat.isEmpty = false := by
      cases pat with
      | nil => exact absurd rfl hne
      | cons p ps => rfl
    simp [this]
  | c :: a, b => by
    rw [List.cons_append, countOcc_cons, countOcc_cons]
    have h1 := isPrefixOf_append_notMem x hpat (c :: a) b
    rw [List.cons_append] at h1
    rw [h1, countOcc_append_notMem x hpat hne a b]
    omega

lemma splitNl_cons_nl (s : List Char) : splitNl ('\n' :: s) = [] :: splitNl s := by
  conv_lhs => rw [splitNl]
  rw [if_pos rfl]

lemma splitNl_cons_ne (c : Char) (s : List Char) (hc : c ≠ '\n') :
    splitNl (c :: s) =
      (match splitNl s with
       | l :: ls => (c :: l) :: ls
       | [] => [[c]]) := by
  conv_lhs => rw [splitNl]
  rw [if_neg hc]

lemma splitNl_ne_nil : ∀ s : List Char, splitNl s ≠ []
  | [] => by simp [splitNl]
  | c :: s => by
    by_cases hc : c = '\n'
    · subst hc
      rw [splitNl_cons_nl]
      simp
    · rw [splitNl_cons_ne c s hc]
      cases h : splitNl s with
      | nil => simp
      | cons l ls => simp

lemma joinNl_cons_cons (l l' : List Char) (ls : List (List Char)) :
    joinNl (l :: l' :: ls) = l ++ '\n' :: joinNl (l' :: ls) := rfl

lemma joinNl_splitNl : ∀ s : List Char, joinNl (splitNl s) = s
  | [] => rfl
  | c :: s => by
    have hrec := joinNl_splitNl s
    by_cases hc : c = '\n'
    · subst hc
      rw [splitNl_cons_nl]
      cases h : splitNl s with
      | nil => exact absurd h (splitNl_ne_nil s)
      | cons l ls =>
        rw [h] at hrec
        rw [joinNl_cons_cons]
        simp [hrec]
    · rw [splitNl_cons_ne c s hc]
      cases h : splitNl s with
      | nil => exact absurd h (splitNl_ne_nil s)
      | cons l ls =>
        rw [h] at hrec
        cases ls with
        | nil => simpa [joinNl] using hrec
        | cons l' ls' =>
          rw [joinNl_cons_cons] at hrec ⊢
          rw [List.cons_append, hrec]

lemma mem_splitNl_not_nl : ∀ (s l : List Char), l ∈ splitNl s → '\n' ∉ l
  | [], l, hl => by
    simp [splitNl] at hl
    subst hl
    simp
  | c :: s, l, hl => by
    by_cases hc : c = '\n'
    · subst hc
      rw [splitNl_cons_nl] at hl
      rcases List.mem_cons.mp hl with h | h
      · subst h; simp
      · exact mem_splitNl_not_nl s l h
    · rw [splitNl_cons_ne c s hc] at hl
      cases hsp : splitNl s with
      | nil => exact absurd hsp (splitNl_ne_nil s)
      | cons l0 ls =>
        rw [hsp] at hl
        rcases List.mem_cons.mp hl with h | h
        · subst h
          intro hmem
          rcases List.mem_cons.mp hmem with h' | h'
          · exact hc h'.symm
          · exact mem_splitNl_not_nl s l0 (hsp ▸ List.mem_cons_self _ _) h'
        · exact mem_splitNl_not_nl s l (hsp ▸ List.mem_cons_of_mem _ h)

lemma splitNl_append_nlfree : ∀ (a : List Char), '\n' ∉ a →
    ∀ b, splitNl (a ++ '\n' :: b) = a :: splitNl b
  | [], _, b => by
    rw [List.nil_append, splitNl_cons_nl]
  | c :: a, ha, b => by
    have hc : c ≠ '\n' := fun h => ha (h ▸ List.mem_cons_self _ _)
    have ha' : '\n' ∉ a := fun h => ha (List.mem_cons_of_mem _ h)
    rw [List.cons_append, splitNl_cons_ne c _ hc, splitNl_append_nlfree a ha' b]

lemma splitNl_nlfree_eq : ∀ l : List Char, '\n' ∉ l → splitNl l = [l]
  | [], _ => rfl
  | c :: l, h => by
    have hc : c ≠ '\n' := fun hx => h (hx ▸ List.mem_cons_self _ _)
    have h' : '\n' ∉ l := fun hx => h (List.mem_cons_of_mem _ hx)
    rw [splitNl_cons_ne c l hc, splitNl_nlfree_eq l h']

lemma splitNl_joinNl : ∀ ls : List (List Char), ls ≠ [] → (∀ l ∈ ls, '\n' ∉ l) →
    splitNl (joinNl ls) = ls
  | [], h, _ => absurd rfl h
  | [l], _, hfree => by
    have : joinNl [l] = l := rfl
    rw [this, splitNl_nlfree_eq l (hfree l (List.mem_cons_self _ _))]
  | l :: l' :: ls, _, hfree => by
    rw [joinNl_cons_cons,
      splitNl_append_nlfree l (hfree l (List.mem_cons_self _ _)) (joinNl (l' :: ls)),
      splitNl_joinNl (l' :: ls) (by simp) (fun x hx => hfree x (List.mem_cons_of_mem _ hx))]

lemma countOcc_joinNl {pat : List Char} (hpat : '\n' ∉ pat) (hne : pat ≠ []) :
    ∀ ls : List (List Char),
      countOcc (joinNl ls) pat = (ls.map (fun l => countOcc l pat)).sum
  | [] => by
    cases pat with
    | nil => exact absurd rfl hne
    | cons p ps => simp [joinNl, countOcc_nil, List.isEmpty]
  | [l] => by simp [joinNl]
  | l :: l' :: ls => by
    rw [joinNl_cons_cons, countOcc_append_notMem '\n' hpat hne l (joinNl (l' :: ls)),
      countOcc_joinNl hpat hne (l' :: ls)]
    simp

lemma collapseGo_nil (k : Nat) : collapseGo k [] = emitNl k := by
  conv_lhs => rw [collapseGo]

lemma collapseGo_cons_nl (k : Nat) (s : List Char) :
    collapseGo k ('\n' :: s) = collapseGo (k + 1) s := by
  conv_lhs => rw [collapseGo]
  rw [if_pos rfl]

lemma collapseGo_cons_ne (k : Nat) (c : Char) (s : List Char) (hc : c ≠ '\n') :
    collapseGo k (c :: s) = emitNl k ++ c :: collapseGo 0 s := by
  conv_lhs => rw [collapseGo]
  rw [if_neg hc]

lemma emitNl_all_nl (k : Nat) : ∀ c ∈ emitNl k, c = '\n' := by
  intro c hc
  unfold emitNl at hc
  split at hc
  · simpa using hc
  · exact List.eq_of_mem_replicate hc

lemma countOcc_all_nl_append {pat : List Char} (hne : pat ≠ []) (hpat : '\n' ∉ pat) :
    ∀ (w x : List Char), (∀ c ∈ w, c = '\n') → countOcc (w ++ x) pat = countOcc x pat
  | [], x, _ => by simp
  | c :: w, x, hw => by
    have hc : c = '\n' := hw c (List.mem_cons_self _ _)
    subst hc
    rw [List.cons_append, countOcc_cons]
    have hp : pat.isPrefixOf ('\n' :: (w ++ x)) = false := by
      cases pat with
      | nil => exact absurd rfl hne
      | cons p ps =>
        exact isPrefixOf_neq_head _ _ (fun h => hpat (h ▸ List.mem_cons_self _ _))
    rw [hp]
    simpa using countOcc_all_nl_append hne hpat w x (fun d hd => hw d (List.mem_cons_of_mem _ hd))

lemma collapseGo_pos_head : ∀ (s : List Char) (k : Nat), 0 < k →
    ∃ r, collapseGo k s = '\n' :: r
  | [], k, hk => by
    rw [collapseGo_nil]
    unfold emitNl
    split
    · exact ⟨['\n'], rfl⟩
    · cases k with
      | zero => omega
      | succ k' => exact ⟨List.replicate k' '\n', by simp [List.replicate_succ]⟩
  | c :: s, k, hk => by
    by_cases hc : c = '\n'
    · subst hc
      rw [collapseGo_cons_nl]
      exact collapseGo_pos_head s (k + 1) (by omega)
    · rw [collapseGo_cons_ne k c s hc]
      unfold emitNl
      split
      · exact ⟨'\n' :: (c :: collapseGo 0 s), rfl⟩
      · cases k with
        | zero => omega
        | succ k' =>
          exact ⟨List.replicate k' '\n' ++ c :: collapseGo 0 s, by simp [List.replicate_succ]⟩

lemma isPrefixOf_collapseGo0 :
    ∀ (s : List Char) (pat : List Char), '\n' ∉ pat →
      pat.isPrefixOf (collapseGo 0 s) = pat.isPrefixOf s
  | [], pat, _ => by
    rw [collapseGo_nil]
    have : emitNl 0 = [] := rfl
    rw [this]
  | c :: s, pat, hpat => by
    by_cases hc : c = '\n'
    · subst hc
      rw [collapseGo_cons_nl]
      obtain ⟨r, hr⟩ := collapseGo_pos_head s 1 (by omega)
      rw [hr]
      cases pat with
      | nil => rfl
      | cons p ps =>
        have hp : p ≠ '\n' := fun h => hpat (h ▸ List.mem_cons_self _ _)
        rw [isPrefixOf_neq_head _ _ hp, isPrefixOf_neq_head _ _ hp]
    · rw [collapseGo_cons_ne 0 c s hc]
      have h0 : emitNl 0 = [] := rfl
      rw [h0, List.nil_append]
      cases pat with
      | nil => rfl
      | cons p ps =>
        have hps : '\n' ∉ ps := fun h => hpat (List.mem_cons_of_mem _ h)
        rw [isPrefixOf_cons_cons, isPrefixOf_cons_cons, isPrefixOf_collapseGo0 s ps hps]

lemma countOcc_collapseGo {pat : List Char} (hpat : '\n' ∉ pat) (hne : pat ≠ []) :
    ∀ (s : List Char) (k : Nat), countOcc (collapseGo k s) pat = countOcc s pat
  | [], k => by
    rw [collapseGo_nil]
    have h1 := countOcc_all_nl_append hne hpat (emitNl k) [] (emitNl_all_nl k)
    simpa using h1
  | c :: s, k => by
    by_cases hc : c = '\n'
    · subst hc
      rw [collapseGo_cons_nl, countOcc_collapseGo hpat hne s (k + 1), countOcc_cons]
      have hp : pat.isPrefixOf ('\n' :: s) = false := by
        cases pat with
        | nil => exact absurd rfl hne
        | cons p ps =>
          exact isPrefixOf_neq_head _ _ (fun h => hpat (h ▸ List.mem_cons_self _ _))
      rw [hp]
      simp
    · rw [collapseGo_cons_ne k c s hc,
        countOcc_all_nl_append hne hpat (emitNl k) _ (emitNl_all_nl k),
        countOcc_cons, countOcc_cons]
      have hpre : pat.isPrefixOf (c :: collapseGo 0 s) = pat.isPrefixOf (c :: s) := by
        cases pat with
        | nil => rfl
        | cons p ps =>
          have hps : '\n' ∉ ps := fun h => hpat (List.mem_cons_of_mem _ h)
          rw [isPrefixOf_cons_cons, isPrefixOf_cons_cons, isPrefixOf_collapseGo0 s ps hps]
      rw [hpre, countOcc_collapseGo hpat hne s 0]

lemma countOcc_jsTrimL {pat : List Char} (hs : startsNonWs pat = true) :
    ∀ s : List Char, countOcc (jsTrimL s) pat = countOcc s pat
  | [] => rfl
  | c :: s => by
    obtain ⟨p, ps, hpat⟩ : ∃ p ps, pat = p :: ps := by
      cases pat with
      | nil => simp [startsNonWs] at hs
      | cons p ps => exact ⟨p, ps, rfl⟩
    have hp : isJsWs p = false := by
      rw [hpat] at hs
      simpa [startsNonWs] using hs
    by_cases hc : isJsWs c
    · have h1 : jsTrimL (c :: s) = jsTrimL s := by
        simp [jsTrimL, List.dropWhile_cons, hc]
      have h2 : pat.isPrefixOf (c :: s) = false := by
        rw [hpat]
        exact isPrefixOf_neq_head _ _ (fun h => by rw [h, hc] at hp; cases hp)
      rw [h1, countOcc_cons, h2, countOcc_jsTrimL hs s]
      simp
    · have h1 : jsTrimL (c :: s) = c :: s := by
        simp [jsTrimL, List.dropWhile_cons, hc]
      rw [h1]

lemma jsTrimR_cons (c : Char) (s : List Char) :
    jsTrimR (c :: s) =
      if (jsTrimR s).isEmpty then (if isJsWs c then [] else [c]) else c :: jsTrimR s := by
  conv_lhs => rw [jsTrimR]

lemma jsTrimR_decomp : ∀ s : List Char, ∃ w, s = jsTrimR s ++ w ∧ ∀ c ∈ w, isJsWs c = true
  | [] => ⟨[], rfl, by simp⟩
  | c :: s => by
    obtain ⟨w, hw1, hw2⟩ := jsTrimR_decomp s
    rw [jsTrimR_cons]
    cases htr : jsTrimR s with
    | nil =>
      have hsw : s = w := by simpa [htr] using hw1
      simp only [List.isEmpty_nil, if_true]
      by_cases hc : isJsWs c
      · rw [if_pos hc]
        refine ⟨c :: s, by simp, fun d hd => ?_⟩
        rcases List.mem_cons.mp hd with h | h
        · subst h; exact hc
        · exact hw2 d (hsw ▸ h)
      · rw [if_neg hc]
        exact ⟨s, rfl, fun d hd => hw2 d (hsw ▸ hd)⟩
    | cons r rs =>
      simp only [List.isEmpty_cons, Bool.false_eq_true, if_false]
      refine ⟨w, ?_, hw2⟩
      rw [List.cons_append, ← htr, ← hw1]

lemma prefix_all_ws_false :
    ∀ {pat : List Char}, endsNonWs pat = true →
      ∀ w : List Char, (∀ c ∈ w, isJsWs c = true) → pat.isPrefixOf w = false
  | [], hp, _, _ => by simp [endsNonWs] at hp
  | [p], hp, [], _ => rfl
  | [p], hp, c :: w, hw => by
    have hpw : isJsWs p = false := by simpa [endsNonWs] using hp
    have hc := hw c (List.mem_cons_self _ _)
    exact isPrefixOf_neq_head _ _ (fun h => by rw [h, hc] at hpw; cases hpw)
  | p :: q :: ps, hp, [], _ => rfl
  | p :: q :: ps, hp, c :: w, hw => by
    rw [isPrefixOf_cons_cons]
    have hqs : endsNonWs (q :: ps) = true := by simpa [endsNonWs] using hp
    rw [prefix_all_ws_false hqs w (fun d hd => hw d (List.mem_cons_of_mem _ hd))]
    simp

lemma endsNonWs_ne_nil {pat : List Char} (hp : endsNonWs pat = true) : pat ≠ [] := by
  intro h
  subst h
  simp [endsNonWs] at hp

lemma countOcc_all_ws_zero {pat : List Char} (hp : endsNonWs pat = true) :
    ∀ w : List Char, (∀ c ∈ w, isJsWs c = true) → countOcc w pat = 0
  | [], _ => by
    rw [countOcc_nil]
    cases pat with
    | nil => exact absurd rfl (endsNonWs_ne_nil hp)
    | cons p ps => rfl
  | c :: w, hw => by
    rw [countOcc_cons, prefix_all_ws_false hp (c :: w) hw,
      countOcc_all_ws_zero hp w (fun d hd => hw d (List.mem_cons_of_mem _ hd))]
    simp

lemma isPrefixOf_append_ws {w : List Char} (hw : ∀ c ∈ w, isJsWs c = true) :
    ∀ (a pat : List Char), endsNonWs pat = true →
      pat.isPrefixOf (a ++ w) = pat.isPrefixOf a
  | [], pat, hp => by
    rw [List.nil_append, prefix_all_ws_false hp w hw]
    cases pat with
    | nil => exact absurd rfl (endsNonWs_ne_nil hp)
    | cons p ps => rfl
  | c :: a, pat, hp => by
    cases pat with
    | nil => rfl
    | cons p ps =>
      rw [List.cons_append, isPrefixOf_cons_cons, isPrefixOf_cons_cons]
      cases ps with
      | nil => simp
      | cons q ps' =>
        have hqs : endsNonWs (q :: ps') = true := by simpa [endsNonWs] using hp
        rw [isPrefixOf_append_ws hw a (q :: ps') hqs]

lemma countOcc_append_ws {pat : List Char} (hp : endsNonWs pat = true)
    {w : List Char} (hw : ∀ c ∈ w, isJsWs c = true) :
    ∀ a : List Char, countOcc (a ++ w) pat = countOcc a pat
  | [] => by
    rw [List.nil_append, countOcc_all_ws_zero hp w hw, countOcc_nil]
    cases pat with
    | nil => exact absurd rfl (endsNonWs_ne_nil hp)
    | cons p ps => rfl
  | c :: a => by
    rw [List.cons_append, countOcc_cons, countOcc_cons]
    have h1 := isPrefixOf_append_ws hw (c :: a) pat hp
    rw [List.cons_append] at h1
    rw [h1, countOcc_append_ws hp hw a]

lemma countOcc_jsTrimR {pat : List Char} (hp : endsNonWs pat = true) (s : List Char) :
    countOcc (jsTrimR s) pat = countOcc s pat := by
  obtain ⟨w, hw1, hw2⟩ := jsTrimR_decomp s
  conv_rhs => rw [hw1]
  rw [countOcc_append_ws hp hw2 (jsTrimR s)]

/-- Blank-line collapsing and trimming preserve the number of occurrences of a
newline-free pattern that starts and ends with non-whitespace characters. -/
lemma countOcc_normalize {pat : List Char} (hnl : '\n' ∉ pat) (hne : pat ≠ [])
    (hstart : startsNonWs pat = true) (hend : endsNonWs pat = true) (s : List Char) :
    countOcc (jsTrim (collapseNl s)) pat = countOcc s pat := by
  unfold jsTrim collapseNl
  rw [countOcc_jsTrimR hend, countOcc_jsTrimL hstart, countOcc_collapseGo hnl hne]

lemma collapseGo0_append_nlfree : ∀ (a : List Char), '\n' ∉ a →
    ∀ s, collapseGo 0 (a ++ s) = a ++ collapseGo 0 s
  | [], _, s => by simp
  | c :: a, ha, s => by
    have hc : c ≠ '\n' := fun h => ha (h ▸ List.mem_cons_self _ _)
    have ha' : '\n' ∉ a := fun h => ha (List.mem_cons_of_mem _ h)
    rw [List.cons_append, collapseGo_cons_ne 0 c _ hc]
    have h0 : emitNl 0 = [] := rfl
    rw [h0, List.nil_append, collapseGo0_append_nlfree a ha' s, List.cons_append]

lemma takeWhile_ne_nl_all : ∀ a : List Char, '\n' ∉ a →
    a.takeWhile (fun c => c ≠ '\n') = a
  | [], _ => rfl
  | c :: a, ha => by
    have hc : c ≠ '\n' := fun h => ha (h ▸ List.mem_cons_self _ _)
    have ha' : '\n' ∉ a := fun h => ha (List.mem_cons_of_mem _ h)
    rw [List.takeWhile_cons, if_pos (by simp [hc]), takeWhile_ne_nl_all a ha']

lemma takeWhile_ne_nl_append : ∀ (a : List Char), '\n' ∉ a →
    ∀ x, (a ++ '\n' :: x).takeWhile (fun c => c ≠ '\n') = a
  | [], _, x => by
    rw [List.nil_append, List.takeWhile_cons, if_neg (by simp)]
  | c :: a, ha, x => by
    have hc : c ≠ '\n' := fun h => ha (h ▸ List.mem_cons_self _ _)
    have ha' : '\n' ∉ a := fun h => ha (List.mem_cons_of_mem _ h)
    rw [List.cons_append, List.takeWhile_cons, if_pos (by simp [hc]),
      takeWhile_ne_nl_append a ha' x]

lemma jsTrimR_append : ∀ a b : List Char,
    jsTrimR (a ++ b) = if (jsTrimR b).isEmpty then jsTrimR a else a ++ jsTrimR b
  | [], b => by
    rw [List.nil_append]
    cases h : jsTrimR b with
    | nil => simp [jsTrimR]
    | cons r rs => simp [h]
  | c :: a, b => by
    rw [List.cons_append, jsTrimR_cons, jsTrimR_append a b]
    cases hb : (jsTrimR b).isEmpty with
    | true => simp [jsTrimR_cons]
    | false =>
      have hbne : jsTrimR b ≠ [] := fun h => by simp [h] at hb
      have hne2 : (a ++ jsTrimR b).isEmpty = false := by
        cases hx : a ++ jsTrimR b with
        | nil => exact absurd (List.append_eq_nil.mp hx).2 hbne
        | cons y ys => rfl
      simp [hne2]

/-- The first line of the normalised output of a text that starts with the
default license line: collapsing and trimming keep it in first position. -/
lemma firstLine_normalize (X : List Char) :
    (jsTrim (collapseNl (defaultLicenseLine ++ '\n' :: X))).takeWhile (fun c => c ≠ '\n') =
      defaultLicenseLine := by
  have hfree : '\n' ∉ defaultLicenseLine := by decide
  have hcol : collapseNl (defaultLicenseLine ++ '\n' :: X) =
      defaultLicenseLine ++ collapseGo 1 X := by
    unfold collapseNl
    rw [collapseGo0_append_nlfree _ hfree, collapseGo_cons_nl]
  obtain ⟨r, hr⟩ := collapseGo_pos_head X 1 (by omega)
  have htrL : jsTrimL (defaultLicenseLine ++ '\n' :: r) = defaultLicenseLine ++ '\n' :: r := by
    have hsplit : defaultLicenseLine = '/' :: str "/ SPDX-License-Identifier: MIT" := by decide
    rw [hsplit, List.cons_append]
    simp [jsTrimL, List.dropWhile_cons, show isJsWs '/' = false from by decide]
  rw [hcol, hr]
  unfold jsTrim
  rw [htrL, jsTrimR_append]
  cases hb : (jsTrimR ('\n' :: r)).isEmpty with
  | true =>
    rw [if_pos rfl]
    have h1 : jsTrimR defaultLicenseLine = defaultLicenseLine := by decide
    rw [h1, takeWhile_ne_nl_all _ hfree]
  | false =>
    rw [if_neg (by simp)]
    have hrr : jsTrimR ('\n' :: r) = '\n' :: jsTrimR r := by
      rw [jsTrimR_cons]
      cases hq : (jsTrimR r).isEmpty with
      | true =>
        rw [jsTrimR_cons, hq] at hb
        simp [show isJsWs '\n' = true from by decide] at hb
      | false => rw [if_neg (by simp [hq])]
    rw [hrr, takeWhile_ne_nl_append _ hfree _]

lemma insertAt_getElem (n : Nat) (x : List Char) (ls : List (List Char)) (h : n ≤ ls.length) :
    (insertAt n x ls)[n]? = some x := by
  unfold insertAt
  have hlen : (ls.take n).length = n := by
    rw [List.length_take]
    omega
  rw [List.getElem?_append_right (by omega), hlen]
  simp

lemma ensureLicense_absent {t : List Char} (h : jsIncludes t licenseMarker = false) :
    ensureLicense t = defaultLicenseLine ++ '\n' :: t := by
  simp [ensureLicense, h]

lemma ensureLicense_present {t : List Char} (h : jsIncludes t licenseMarker = true) :
    ensureLicense t = t := by
  simp [ensureLicense, h]

lemma ensurePragma_present {s : List Char} (h : jsIncludes s pragmaMarker = true) :
    ensurePragma s = s := by
  simp [ensurePragma, h]

lemma ensurePragma_absent {s : List Char} {i : Nat} (h : jsIncludes s pragmaMarker = false)
    (hfi : (splitNl s).findIdx? (fun l => jsIncludes l licenseMarker) = some i) :
    ensurePragma s = joinNl (insertAt (i + 1) defaultPragmaLine (splitNl s)) := by
  simp [ensurePragma, h, hfi]

/-! ## C6 (corrected) -/

/-- C6 counterexample: the license-header condition cannot be read off the
*input*.  The raw text below does not contain the marker
`SPDX-License-Identifier` (a code fence interrupts it), yet fence stripping
manufactures the marker, so the Sanitizer prepends nothing and the accepted
result contains no default license header line at all — the claim "if the
input contains no license header, the result contains exactly one prepended
default license header line" fails. -/
theorem sanitize_license_header_cex :
    jsIncludes
        (str "pragma solidity ^0.8.19;\nuint SPDX-License-```\nIdentifier x\ncontract C \x7b\x7d")
        licenseMarker = false ∧
    validateAndCleanContract
        (str "pragma solidity ^0.8.19;\nuint SPDX-License-```\nIdentifier x\ncontract C \x7b\x7d") =
      .ok (str "pragma solidity ^0.8.19;\nuint SPDX-License-Identifier x\ncontract C \x7b\x7d") ∧
    (splitNl (str "pragma solidity ^0.8.19;\nuint SPDX-License-Identifier x\ncontract C \x7b\x7d")).all
      (fun l => decide (l ≠ defaultLicenseLine)) = true := by
  refine ⟨by decide, by decide, by decide⟩

/-- C6 (amended): the insertion conditions are evaluated on the cleaned text
after steps 1–3, not on the raw input.  For every accepted input: if that
cleaned text lacks the license marker, exactly the default license line is
prepended — the pre-normalisation text and the final artifact each contain the
marker exactly once, and the artifact's first line is the default license
line; if the text (after license handling) lacks the pragma marker, exactly
one default pragma line is spliced in immediately after the first
license-marker line, and pre-normalisation text and artifact each contain the
pragma marker exactly once; when a marker is already present, the
corresponding insertion step changes nothing, so no duplicate is added. -/
theorem sanitize_license_pragma_insertion (raw out : List Char)
    (hok : validateAndCleanContract raw = .ok out) :
    (jsIncludes (cleanSteps3 raw) licenseMarker = false →
      ensureLicense (cleanSteps3 raw) = defaultLicenseLine ++ '\n' :: cleanSteps3 raw ∧
      countOcc (cleanPipeline raw) licenseMarker = 1 ∧
      countOcc out licenseMarker = 1 ∧
      out.takeWhile (fun c => c ≠ '\n') = defaultLicenseLine) ∧
    (jsIncludes (cleanSteps3 raw) licenseMarker = true →
      ensureLicense (cleanSteps3 raw) = cleanSteps3 raw) ∧
    (jsIncludes (ensureLicense (cleanSteps3 raw)) pragmaMarker = false →
      countOcc (cleanPipeline raw) pragmaMarker = 1 ∧
      countOcc out pragmaMarker = 1 ∧
      (∃ i, (splitNl (ensureLicense (cleanSteps3 raw))).findIdx?
          (fun l => jsIncludes l licenseMarker) = some i ∧
        (splitNl (cleanPipeline raw))[i + 1]? = some defaultPragmaLine)) ∧
    (jsIncludes (ensureLicense (cleanSteps3 raw)) pragmaMarker = true →
      cleanPipeline raw = ensureLicense (cleanSteps3 raw)) := by
  have hout : out = jsTrim (collapseNl (cleanPipeline raw)) := (sanitize_ok_shape hok).2
  refine ⟨?_, ?_, ?_, ?_⟩
  · -- license absent from the cleaned text
    intro hlic
    have hD : ensureLicense (cleanSteps3 raw) = defaultLicenseLine ++ '\n' :: cleanSteps3 raw :=
      ensureLicense_absent hlic
    have hkey : ∃ X, cleanPipeline raw = defaultLicenseLine ++ '\n' :: X ∧
        countOcc X licenseMarker = 0 := by
      by_cases hp : jsIncludes (ensureLicense (cleanSteps3 raw)) pragmaMarker = true
      · refine ⟨cleanSteps3 raw, ?_, (countOcc_eq_zero_iff _ _).mpr hlic⟩
        unfold cleanPipeline
        rw [ensurePragma_present hp, hD]
      · have hp' : jsIncludes (ensureLicense (cleanSteps3 raw)) pragmaMarker = false := by
          simpa using hp
        have hsplit : splitNl (ensureLicense (cleanSteps3 raw)) =
            defaultLicenseLine :: splitNl (cleanSteps3 raw) := by
          rw [hD]
          exact splitNl_append_nlfree _ (by decide) _
        have hfi : (splitNl (ensureLicense (cleanSteps3 raw))).findIdx?
            (fun l => jsIncludes l licenseMarker) = some 0 := by
          rw [hsplit, List.findIdx?_cons]
          rw [if_pos (by decide)]
        refine ⟨defaultPragmaLine ++ '\n' :: cleanSteps3 raw, ?_, ?_⟩
        · unfold cleanPipeline
          rw [ensurePragma_absent hp' hfi, hsplit]
          have hins : insertAt (0 + 1) defaultPragmaLine
              (defaultLicenseLine :: splitNl (cleanSteps3 raw)) =
              defaultLicenseLine :: defaultPragmaLine :: splitNl (cleanSteps3 raw) := by
            simp [insertAt]
          rw [hins, joinNl_cons_cons]
          congr 1
          cases hsp : splitNl (cleanSteps3 raw) with
          | nil => exact absurd hsp (splitNl_ne_nil _)
          | cons l ls =>
            rw [joinNl_cons_cons]
            have hrt := joinNl_splitNl (cleanSteps3 raw)
            rw [hsp] at hrt
            rw [hrt]
        · rw [countOcc_append_notMem '\n' (by decide) (by decide) defaultPragmaLine
            (cleanSteps3 raw), (countOcc_eq_zero_iff _ _).mpr hlic,
            show countOcc defaultPragmaLine licenseMarker = 0 from by decide]
    obtain ⟨X, hu, hX0⟩ := hkey
    have hcnt_u : countOcc (cleanPipeline raw) licenseMarker = 1 := by
      rw [hu, countOcc_append_notMem '\n' (by decide) (by decide) defaultLicenseLine X, hX0,
        show countOcc defaultLicenseLine licenseMarker = 1 from by decide]
    refine ⟨hD, hcnt_u, ?_, ?_⟩
    · rw [hout]
      exact (countOcc_normalize (by decide) (by decide) (by decide) (by decide) _).trans hcnt_u
    · rw [hout, hu]
      exact firstLine_normalize X
  · exact fun hlic => ensureLicense_present hlic
  · -- pragma absent from the text after license handling
    intro hprag
    have hslic : jsIncludes (ensureLicense (cleanSteps3 raw)) licenseMarker = true := by
      by_cases hlic : jsIncludes (cleanSteps3 raw) licenseMarker = true
      · rw [ensureLicense_present hlic]
        exact hlic
      · rw [ensureLicense_absent (by simpa using hlic)]
        have h1 : countOcc (defaultLicenseLine ++ '\n' :: cleanSteps3 raw) licenseMarker ≠ 0 := by
          rw [countOcc_append_notMem '\n' (by decide) (by decide),
            show countOcc defaultLicenseLine licenseMarker = 1 from by decide]
          omega
        cases hinc : jsIncludes (defaultLicenseLine ++ '\n' :: cleanSteps3 raw) licenseMarker with
        | true => rfl
        | false => exact absurd ((countOcc_eq_zero_iff _ _).mpr hinc) h1
    obtain ⟨i, hfi⟩ : ∃ i, (splitNl (ensureLicense (cleanSteps3 raw))).findIdx?
        (fun l => jsIncludes l licenseMarker) = some i := by
      cases hf : (splitNl (ensureLicense (cleanSteps3 raw))).findIdx?
          (fun l => jsIncludes l licenseMarker) with
      | some j => exact ⟨j, rfl⟩
      | none =>
        have hall := List.findIdx?_eq_none_iff.mp hf
        have hz : countOcc (ensureLicense (cleanSteps3 raw)) licenseMarker = 0 := by
          conv_lhs => rw [← joinNl_splitNl (ensureLicense (cleanSteps3 raw))]
          rw [countOcc_joinNl (by decide) (by decide)]
          apply List.sum_eq_zero
          intro x hx
          simp only [List.mem_map] at hx
          obtain ⟨l, hl, hlx⟩ := hx
          rw [← hlx]
          exact (countOcc_eq_zero_iff _ _).mpr (hall l hl)
        rw [(countOcc_eq_zero_iff _ _).mp hz] at hslic
        cases hslic
    have hlt : i < (splitNl (ensureLicense (cleanSteps3 raw))).length :=
      (List.findIdx?_eq_some_iff_findIdx_eq.mp hfi).1
    have hins : cleanPipeline raw =
        joinNl (insertAt (i + 1) defaultPragmaLine
          (splitNl (ensureLicense (cleanSteps3 raw)))) := by
      unfold cleanPipeline
      rw [ensurePragma_absent hprag hfi]
    have hzero : ∀ l ∈ splitNl (ensureLicense (cleanSteps3 raw)),
        countOcc l pragmaMarker = 0 := by
      have hsum : ((splitNl (ensureLicense (cleanSteps3 raw))).map
          (fun l => countOcc l pragmaMarker)).sum = 0 := by
        rw [← countOcc_joinNl (by decide) (by decide),
          joinNl_splitNl (ensureLicense (cleanSteps3 raw))]
        exact (countOcc_eq_zero_iff _ _).mpr hprag
      intro l hl
      have := List.sum_eq_zero_iff.mp hsum (countOcc l pragmaMarker)
        (List.mem_map.mpr ⟨l, hl, rfl⟩)
      exact this
    have hcnt_u : countOcc (cleanPipeline raw) pragmaMarker = 1 := by
      rw [hins, countOcc_joinNl (by decide) (by decide)]
      unfold insertAt
      rw [List.map_append, List.sum_append, List.map_cons, List.sum_cons]
      have htake : ((List.take (i + 1) (splitNl (ensureLicense (cleanSteps3 raw)))).map
          (fun l => countOcc l pragmaMarker)).sum = 0 := by
        apply List.sum_eq_zero
        intro x hx
        simp only [List.mem_map] at hx
        obtain ⟨l, hl, hlx⟩ := hx
        rw [← hlx]
        exact hzero l (List.mem_of_mem_take hl)
      have hdrop : ((List.drop (i + 1) (splitNl (ensureLicense (cleanSteps3 raw)))).map
          (fun l => countOcc l pragmaMarker)).sum = 0 := by
        apply List.sum_eq_zero
        intro x hx
        simp only [List.mem_map] at hx
        obtain ⟨l, hl, hlx⟩ := hx
        rw [← hlx]
        exact hzero l (List.mem_of_mem_drop hl)
      rw [htake, hdrop, show countOcc defaultPragmaLine pragmaMarker = 1 from by decide]
      omega
    refine ⟨hcnt_u, ?_, ⟨i, hfi, ?_⟩⟩
    · rw [hout]
      exact (countOcc_normalize (by decide) (by decide) (by decide) (by decide) _).trans hcnt_u
    · rw [hins, splitNl_joinNl _ ?_ ?_]
      · exact insertAt_getElem (i + 1) defaultPragmaLine _ (by omega)
      · unfold insertAt
        intro hnil
        exact absurd (List.append_eq_nil.mp hnil).2 (by simp)
      · intro l hl
        unfold insertAt at hl
        rcases List.mem_append.mp hl with h | h
        · exact mem_splitNl_not_nl _ _ (List.mem_of_mem_take h)
        · rcases List.mem_cons.mp h with h' | h'
          · subst h'
            decide
          · exact mem_splitNl_not_nl _ _ (List.mem_of_mem_drop h')
  · intro hp
    unfold cleanPipeline
    exact ensurePragma_present hp

theorem sanitize_license_pragma_insertion_witness :
    (validateAndCleanContract (str "contract W \x7b\x7d") =
      .ok (str "// SPDX-License-Identifier: MIT\npragma solidity ^0.8.19;\ncontract W \x7b\x7d")) ∧
    jsIncludes (cleanSteps3 (str "contract W \x7b\x7d")) licenseMarker = false ∧
    countOcc (cleanPipeline (str "contract W \x7b\x7d")) licenseMarker = 1 ∧
    countOcc (str "// SPDX-License-Identifier: MIT\npragma solidity ^0.8.19;\ncontract W \x7b\x7d")
      licenseMarker = 1 ∧
    (str "// SPDX-License-Identifier: MIT\npragma solidity ^0.8.19;\ncontract W \x7b\x7d").takeWhile
      (fun c => c ≠ '\n') = defaultLicenseLine := by
  have h := sanitize_license_pragma_insertion (str "contract W \x7b\x7d")
    (str "// SPDX-License-Identifier: MIT\npragma solidity ^0.8.19;\ncontract W \x7b\x7d")
    (by decide)
  have h1 := h.1 (by decide)
  exact ⟨by decide, by decide, h1.2.1, h1.2.2.1, h1.2.2.2⟩
